import Mathlib

/-!
Shallow embedding of `src/main.c` (parallel pairwise angular-distance
statistics over a star catalog) and proofs about it.

Modelling conventions:
* C `double` values are modelled as exact rationals `ℚ`; `DBL_MAX` (from
  `float.h`) is the largest finite IEEE-754 double, an exact rational.
* The star array together with the distance kernel is abstracted as a
  function `dist : Nat → Nat → ℚ` standing for
  `fun i j => calculateAngularDistance (arr[i].RightAscension, arr[i].Declination,
  arr[j].RightAscension, arr[j].Declination)`; the loop, partition and
  reduction structure is translated literally from the source.
* The source hard-codes the loop bound `NUM_STARS`; the embedding takes the
  bound `n` as a parameter and the program-level entry point instantiates
  `n = NUM_STARS`, exactly as `main` does.
* Thread interleaving: each thread merges its `local_min`/`local_max` into
  the globals under one mutex (lines 101-108), so the merges occur
  sequentially in some order; the embedding folds the merges in thread index
  order.  The merge operation is `min`/`max`, which is commutative and
  associative, and the theorems below show the result equals the fold over
  all pairs, hence the modelled order is representative of every
  interleaving.
* The distance kernel `calculateAngularDistance` is declared in
  `utility.h`/`star.h`, whose sources are not in the repository snapshot; it
  is modelled from the spec (§4.1) over the reals, separately from the
  rational loop machinery.
-/

/-- `NUM_STARS` compile-time constant (main.c line 36). -/
def NUM_STARS : Nat := 30000

/-- `DBL_MAX` from `float.h`: the largest finite IEEE-754 binary64 value
`(2 - 2⁻⁵²)·2¹⁰²³ = (2⁵³ - 1)·2⁹⁷¹`, exact as a rational. -/
def DBL_MAX : ℚ := (2 ^ 53 - 1) * 2 ^ 971

/-- The per-thread accumulator state of `determineAverageAngularDistanceThread`
(main.c lines 77-80): `count`, `sum`, `local_min`, `local_max`. -/
structure LocalStats where
  count : Nat
  sum : ℚ
  local_min : ℚ
  local_max : ℚ
  deriving DecidableEq, Repr

/-- The inner loop index list (main.c line 84): `j` runs over `[i+1, n)`,
paired with the fixed outer index `i`.  In the source the bound is the
constant `NUM_STARS`; `n` is that bound as a parameter. -/
def innerPairs (n i : Nat) : List (Nat × Nat) :=
  (List.range' (i + 1) (n - (i + 1))).map (fun j => (i, j))

/-- The pairs visited by the double loop of the thread function
(main.c lines 82-95): `i ∈ [start, stop)`, `j ∈ (i, n)`. -/
def segPairs (n start stop : Nat) : List (Nat × Nat) :=
  (List.range' start (stop - start)).flatMap (fun i => innerPairs n i)

/-- All pairs `(i, j)` with `i < j < n`, the full pair space. -/
def allPairs (n : Nat) : List (Nat × Nat) :=
  (List.range n).flatMap (fun i => innerPairs n i)

/-- One iteration of the inner loop body (main.c lines 86-94): compute the
distance, increment `count`, update `local_min`/`local_max` by comparison.
`sum` is left unchanged: the source initializes `sum = 0` (line 78) and
stores it untouched (line 97); no statement ever adds `distance` to it. -/
def pairStep (dist : Nat → Nat → ℚ) (a : LocalStats) (p : Nat × Nat) : LocalStats :=
  let distance := dist p.1 p.2
  { count := a.count + 1
    sum := a.sum
    local_min := if a.local_min > distance then distance else a.local_min
    local_max := if a.local_max < distance then distance else a.local_max }

/-- `determineAverageAngularDistanceThread` (main.c lines 69-98): the local
phase of one worker over segment `[start, stop)` with inner bound `n`,
starting from `count = 0`, `sum = 0`, `local_min = DBL_MAX`, `local_max = 0`. -/
def determineAverageAngularDistanceThread
    (dist : Nat → Nat → ℚ) (n start stop : Nat) : LocalStats :=
  (segPairs n start stop).foldl (pairStep dist) ⟨0, 0, DBL_MAX, 0⟩

/-- Segment start for worker `i` (main.c line 129): `i * stars_per_thread`
with `stars_per_thread = n / T` (integer division, line 124). -/
def segStart (n T i : Nat) : Nat := i * (n / T)

/-- Segment end for worker `i` (main.c line 130): the last worker's end is
`n`; every other worker ends at `(i+1) * stars_per_thread`. -/
def segStop (n T i : Nat) : Nat := if i = T - 1 then n else (i + 1) * (n / T)

/-- The global state published by `determineAverageAngularDistance`:
the globals `min`, `max`, `mean` (main.c lines 52-54) together with the
locals `total_sum`, `total_count` of the reduction (lines 142-143). -/
structure GlobalState where
  min : ℚ
  max : ℚ
  mean : ℚ
  total_sum : ℚ
  total_count : Nat
  deriving DecidableEq, Repr

/-- The `data` array of `determineAverageAngularDistance` (main.c lines
121, 127-139) after all threads have been joined: entry `i` is the
`LocalStats` produced by worker `i` on its segment. -/
def workerData (dist : Nat → Nat → ℚ) (n T : Nat) : List LocalStats :=
  (List.range T).map (fun i =>
    determineAverageAngularDistanceThread dist n (segStart n T i) (segStop n T i))

/-- `determineAverageAngularDistance` (main.c lines 116-152): partition
`[0, n)` into `T` segments, run one worker per segment, merge each worker's
`local_min`/`local_max` into the globals (lines 101-108, modelled in thread
index order; `min`/`max` start at `DBL_MAX` and `0`, lines 52-53), then sum
the per-worker `sum`/`count` fields and set `mean = total_sum / total_count`
(lines 141-151).  In C the final division is a floating-point division:
when `total_count = 0` it evaluates to NaN; in `ℚ` division by zero gives
`0`.  No validation of `T` or `n` is performed anywhere, exactly as in the
source. -/
def determineAverageAngularDistance (dist : Nat → Nat → ℚ) (n T : Nat) : GlobalState :=
  { min := (workerData dist n T).foldl
      (fun m l => if m > l.local_min then l.local_min else m) DBL_MAX
    max := (workerData dist n T).foldl
      (fun m l => if m < l.local_max then l.local_max else m) 0
    mean := ((workerData dist n T).foldl (fun s l => s + l.sum) 0) /
      (((workerData dist n T).foldl (fun c l => c + l.count) (0 : Nat) : Nat) : ℚ)
    total_sum := (workerData dist n T).foldl (fun s l => s + l.sum) 0
    total_count := (workerData dist n T).foldl (fun c l => c + l.count) (0 : Nat) }

/-- The computation exactly as `main` invokes it (main.c lines 199-237):
`main` reads `star_count` records into `star_array`, then calls
`determineAverageAngularDistance(star_array, num_threads)`.  The loops and
the partition use the compile-time constant `NUM_STARS`; `star_count` is
never passed to the computation, so it is an ignored argument here. -/
def mainComputation (dist : Nat → Nat → ℚ) (_star_count T : Nat) : GlobalState :=
  determineAverageAngularDistance dist NUM_STARS T

/-- Degree-to-radian conversion used by the kernel. -/
noncomputable def toRadians (deg : ℝ) : ℝ := deg * (Real.pi / 180)

/-- Radian-to-degree conversion used by the kernel. -/
noncomputable def toDegrees (rad : ℝ) : ℝ := rad * (180 / Real.pi)

/-- Modelled from the spec: the clamp of the spherical-law-of-cosines value
to `[-1, 1]` (§4.1 "Numeric-edge policy"), part of `calculateAngularDistance`
whose definition (declared via `utility.h`/`star.h`) is missing from the
repository snapshot. -/
noncomputable def clampCos (x : ℝ) : ℝ := max (-1) (min 1 x)

/-- Modelled from the spec: the spherical law of cosines value
`sin(dec1)·sin(dec2) + cos(dec1)·cos(dec2)·cos(ra1 − ra2)` with all
coordinates converted from degrees to radians (§4.1). -/
noncomputable def cosTheta (ra1 dec1 ra2 dec2 : ℝ) : ℝ :=
  Real.sin (toRadians dec1) * Real.sin (toRadians dec2) +
    Real.cos (toRadians dec1) * Real.cos (toRadians dec2) *
      Real.cos (toRadians ra1 - toRadians ra2)

/-- Modelled from the spec: `calculateAngularDistance` (§4.1) — the
great-circle separation in degrees, `degrees(acos(clamp(cosTheta)))`.
Its C definition is declared in `utility.h`, which is not in the
repository snapshot; the spec mandates the clamp before `acos`. -/
noncomputable def calculateAngularDistance (ra1 dec1 ra2 dec2 : ℝ) : ℝ :=
  toDegrees (Real.arccos (clampCos (cosTheta ra1 dec1 ra2 dec2)))

/-- Concrete distance function: every pair at 90 degrees. -/
def dist90 : Nat → Nat → ℚ := fun _ _ => 90

/-- Concrete distance function: every pair at 0 degrees. -/
def dist0 : Nat → Nat → ℚ := fun _ _ => 0

/-- Concrete distance function depending on the indices. -/
def distIJ : Nat → Nat → ℚ := fun i j => (i : ℚ) + (j : ℚ)


/-- The list of distances computed over a list of index pairs. -/
def pairDists (dist : Nat → Nat → ℚ) (l : List (Nat × Nat)) : List ℚ :=
  l.map (fun p => dist p.1 p.2)

theorem ite_gt_eq_min (m d : ℚ) : (if m > d then d else m) = min m d := by
  rcases le_or_lt m d with h | h
  · rw [if_neg (not_lt.mpr h), min_eq_left h]
  · rw [if_pos h, min_eq_right h.le]

theorem ite_lt_eq_max (m d : ℚ) : (if m < d then d else m) = max m d := by
  rcases le_or_lt d m with h | h
  · rw [if_neg (not_lt.mpr h), max_eq_left h]
  · rw [if_pos h, max_eq_right h.le]

theorem foldl_min_min (l : List ℚ) : ∀ a b : ℚ,
    l.foldl min (min a b) = min a (l.foldl min b) := by
  induction l with
  | nil => intro a b; rfl
  | cons x l ih =>
    intro a b
    simp only [List.foldl_cons]
    rw [min_assoc]
    exact ih a (min b x)

theorem foldl_min_le_init (l : List ℚ) (a : ℚ) : l.foldl min a ≤ a := by
  have h := foldl_min_min l a a
  rw [min_self] at h
  rw [h]
  exact min_le_left _ _

theorem foldl_min_le_mem (l : List ℚ) : ∀ a x : ℚ, x ∈ l → l.foldl min a ≤ x := by
  induction l with
  | nil => intro a x hx; cases hx
  | cons y l ih =>
    intro a x hx
    simp only [List.foldl_cons]
    rcases List.mem_cons.mp hx with h | h
    · subst h
      calc l.foldl min (min a x) ≤ min a x := foldl_min_le_init _ _
        _ ≤ x := min_le_right _ _
    · exact ih _ x h

theorem foldl_min_eq_init_or_mem (l : List ℚ) : ∀ a : ℚ,
    l.foldl min a = a ∨ l.foldl min a ∈ l := by
  induction l with
  | nil => intro a; left; rfl
  | cons x l ih =>
    intro a
    simp only [List.foldl_cons]
    rcases ih (min a x) with h | h
    · rw [h]
      rcases min_choice a x with h2 | h2
      · left; exact h2
      · right; rw [h2]; exact List.mem_cons_self x l
    · right; exact List.mem_cons_of_mem x h

theorem foldl_max_max (l : List ℚ) : ∀ a b : ℚ,
    l.foldl max (max a b) = max a (l.foldl max b) := by
  induction l with
  | nil => intro a b; rfl
  | cons x l ih =>
    intro a b
    simp only [List.foldl_cons]
    rw [max_assoc]
    exact ih a (max b x)

theorem foldl_max_init_le (l : List ℚ) (a : ℚ) : a ≤ l.foldl max a := by
  have h := foldl_max_max l a a
  rw [max_self] at h
  rw [h]
  exact le_max_left _ _

theorem foldl_max_mem_le (l : List ℚ) : ∀ a x : ℚ, x ∈ l → x ≤ l.foldl max a := by
  induction l with
  | nil => intro a x hx; cases hx
  | cons y l ih =>
    intro a x hx
    simp only [List.foldl_cons]
    rcases List.mem_cons.mp hx with h | h
    · subst h
      calc x ≤ max a x := le_max_right _ _
        _ ≤ l.foldl max (max a x) := foldl_max_init_le _ _
    · exact ih _ x h

theorem foldl_max_eq_init_or_mem (l : List ℚ) : ∀ a : ℚ,
    l.foldl max a = a ∨ l.foldl max a ∈ l := by
  induction l with
  | nil => intro a; left; rfl
  | cons x l ih =>
    intro a
    simp only [List.foldl_cons]
    rcases ih (max a x) with h | h
    · rw [h]
      rcases max_choice a x with h2 | h2
      · left; exact h2
      · right; rw [h2]; exact List.mem_cons_self x l
    · right; exact List.mem_cons_of_mem x h

theorem foldl_min_flatten (ls : List (List ℚ)) : ∀ a : ℚ, a ≤ DBL_MAX →
    ls.foldl (fun m s => min m (s.foldl min DBL_MAX)) a = ls.flatten.foldl min a := by
  induction ls with
  | nil => intro a _; rfl
  | cons s rest ih =>
    intro a ha
    simp only [List.foldl_cons, List.flatten_cons, List.foldl_append]
    rw [← foldl_min_min, min_eq_left ha]
    exact ih _ (le_trans (foldl_min_le_init s a) ha)

theorem foldl_max_flatten (ls : List (List ℚ)) : ∀ a : ℚ, 0 ≤ a →
    ls.foldl (fun m s => max m (s.foldl max 0)) a = ls.flatten.foldl max a := by
  induction ls with
  | nil => intro a _; rfl
  | cons s rest ih =>
    intro a ha
    simp only [List.foldl_cons, List.flatten_cons, List.foldl_append]
    rw [← foldl_max_max, max_eq_left ha]
    exact ih _ (le_trans ha (foldl_max_init_le s a))

theorem foldl_pairStep (dist : Nat → Nat → ℚ) :
    ∀ (l : List (Nat × Nat)) (a : LocalStats),
      l.foldl (pairStep dist) a =
        ⟨a.count + l.length, a.sum,
          (pairDists dist l).foldl min a.local_min,
          (pairDists dist l).foldl max a.local_max⟩ := by
  intro l
  induction l with
  | nil =>
    intro a
    simp only [List.foldl_nil, pairDists, List.map_nil, List.length_nil, Nat.add_zero]
  | cons p l ih =>
    intro a
    simp only [List.foldl_cons, pairDists, List.map_cons, List.length_cons]
    rw [ih]
    simp only [pairStep, ite_gt_eq_min, ite_lt_eq_max, List.foldl_cons,
      LocalStats.mk.injEq, pairDists, and_true, true_and]
    omega

theorem determineAverageAngularDistanceThread_def
    (dist : Nat → Nat → ℚ) (n start stop : Nat) :
    determineAverageAngularDistanceThread dist n start stop =
      ⟨(segPairs n start stop).length, 0,
        (pairDists dist (segPairs n start stop)).foldl min DBL_MAX,
        (pairDists dist (segPairs n start stop)).foldl max 0⟩ := by
  unfold determineAverageAngularDistanceThread
  rw [foldl_pairStep]
  simp

/-- The cut points of the partition: worker `i` owns `[cut i, cut (i+1))`.
`cut i = i * (n / T)` for `i < T` and `n` from `i = T` on. -/
def cut (n T i : Nat) : Nat := if i < T then i * (n / T) else n

theorem cut_le_succ (n T i : Nat) : cut n T i ≤ cut n T (i + 1) := by
  unfold cut
  by_cases h1 : i + 1 < T
  · rw [if_pos (by omega), if_pos h1]
    exact Nat.mul_le_mul_right _ (by omega)
  · rw [if_neg h1]
    by_cases h2 : i < T
    · rw [if_pos h2]
      calc i * (n / T) ≤ T * (n / T) := Nat.mul_le_mul_right _ (le_of_lt h2)
        _ ≤ n := by rw [Nat.mul_comm]; exact Nat.div_mul_le_self n T
    · rw [if_neg h2]

theorem cut_mono (n T : Nat) : Monotone (cut n T) :=
  monotone_nat_of_le_succ (cut_le_succ n T)

theorem range_flatMap_cut (n T : Nat) : ∀ t : Nat,
    (List.range t).flatMap
        (fun i => List.range' (cut n T i) (cut n T (i + 1) - cut n T i)) =
      List.range' (cut n T 0) (cut n T t - cut n T 0) := by
  intro t
  induction t with
  | zero => simp
  | succ t ih =>
    rw [List.range_succ, List.flatMap_append, ih]
    simp only [List.flatMap_cons, List.flatMap_nil, List.append_nil]
    have h0t : cut n T 0 ≤ cut n T t := cut_mono n T (Nat.zero_le t)
    have htt : cut n T t ≤ cut n T (t + 1) := cut_le_succ n T t
    have happ := List.range'_append (cut n T 0) (cut n T t - cut n T 0)
      (cut n T (t + 1) - cut n T t) 1
    rw [(by omega : cut n T 0 + 1 * (cut n T t - cut n T 0) = cut n T t)] at happ
    rw [happ,
      (by omega : cut n T (t + 1) - cut n T t + (cut n T t - cut n T 0) =
        cut n T (t + 1) - cut n T 0)]

theorem segStart_eq_cut (n T i : Nat) (hi : i < T) : segStart n T i = cut n T i := by
  unfold segStart cut
  rw [if_pos hi]

theorem segStop_eq_cut (n T i : Nat) (hi : i < T) : segStop n T i = cut n T (i + 1) := by
  unfold segStop cut
  by_cases h : i = T - 1
  · rw [if_pos h, if_neg (by omega)]
  · rw [if_neg h, if_pos (by omega)]

theorem segStart_le_segStop (n T i : Nat) (hi : i < T) :
    segStart n T i ≤ segStop n T i := by
  rw [segStart_eq_cut n T i hi, segStop_eq_cut n T i hi]
  exact cut_le_succ n T i

theorem seg_join (n T : Nat) (hT : 1 ≤ T) :
    (List.range T).flatMap
        (fun i => List.range' (segStart n T i) (segStop n T i - segStart n T i)) =
      List.range n := by
  have hcongr : ∀ i ∈ List.range T,
      List.range' (segStart n T i) (segStop n T i - segStart n T i) =
        List.range' (cut n T i) (cut n T (i + 1) - cut n T i) := by
    intro i hi
    rw [List.mem_range] at hi
    rw [segStart_eq_cut n T i hi, segStop_eq_cut n T i hi]
  rw [List.flatMap_def, List.map_congr_left hcongr, ← List.flatMap_def,
    range_flatMap_cut n T T]
  have hc0 : cut n T 0 = 0 := by
    unfold cut
    rw [if_pos (by omega), Nat.zero_mul]
  have hcT : cut n T T = n := by
    unfold cut
    rw [if_neg (lt_irrefl T)]
  rw [hc0, hcT, Nat.sub_zero, ← List.range_eq_range']

theorem workers_pairs_join (n T : Nat) (hT : 1 ≤ T) :
    (List.range T).flatMap (fun i => segPairs n (segStart n T i) (segStop n T i)) =
      allPairs n := by
  unfold segPairs allPairs
  rw [← List.flatMap_assoc, seg_join n T hT]

theorem flatten_map_map (f : Nat × Nat → ℚ) (g : Nat → List (Nat × Nat)) :
    ∀ l : List Nat, (l.map (fun i => (g i).map f)).flatten = (l.flatMap g).map f := by
  intro l
  induction l with
  | nil => rfl
  | cons x l ih =>
    simp only [List.map_cons, List.flatten_cons, List.flatMap_cons, List.map_append, ih]

theorem workerData_min (dist : Nat → Nat → ℚ) (n T : Nat) (hT : 1 ≤ T) :
    (workerData dist n T).foldl (fun m l => min m l.local_min) DBL_MAX =
      (pairDists dist (allPairs n)).foldl min DBL_MAX := by
  unfold workerData
  rw [List.foldl_map]
  simp only [determineAverageAngularDistanceThread_def]
  rw [← List.foldl_map
    (fun i => pairDists dist (segPairs n (segStart n T i) (segStop n T i)))
    (fun m s => min m (s.foldl min DBL_MAX))]
  rw [foldl_min_flatten _ DBL_MAX le_rfl]
  unfold pairDists
  rw [flatten_map_map, workers_pairs_join n T hT]

theorem workerData_max (dist : Nat → Nat → ℚ) (n T : Nat) (hT : 1 ≤ T) :
    (workerData dist n T).foldl (fun m l => max m l.local_max) 0 =
      (pairDists dist (allPairs n)).foldl max 0 := by
  unfold workerData
  rw [List.foldl_map]
  simp only [determineAverageAngularDistanceThread_def]
  rw [← List.foldl_map
    (fun i => pairDists dist (segPairs n (segStart n T i) (segStop n T i)))
    (fun m s => max m (s.foldl max 0))]
  rw [foldl_max_flatten _ 0 le_rfl]
  unfold pairDists
  rw [flatten_map_map, workers_pairs_join n T hT]

theorem workerData_sum (dist : Nat → Nat → ℚ) (n T : Nat) :
    (workerData dist n T).foldl (fun s l => s + l.sum) 0 = 0 := by
  have key : ∀ (l : List LocalStats), (∀ x ∈ l, x.sum = 0) →
      ∀ a : ℚ, l.foldl (fun s x => s + x.sum) a = a := by
    intro l
    induction l with
    | nil => intro _ a; rfl
    | cons x l ih =>
      intro h a
      simp only [List.foldl_cons]
      rw [h x (List.mem_cons_self x l), add_zero]
      exact ih (fun y hy => h y (List.mem_cons_of_mem x hy)) a
  apply key
  intro x hx
  unfold workerData at hx
  rw [List.mem_map] at hx
  obtain ⟨i, _, rfl⟩ := hx
  rw [determineAverageAngularDistanceThread_def]

theorem foldl_add_count : ∀ (l : List LocalStats) (a : Nat),
    l.foldl (fun c x => c + x.count) a = a + (l.map (fun x => x.count)).sum := by
  intro l
  induction l with
  | nil => intro a; simp
  | cons x l ih =>
    intro a
    simp only [List.foldl_cons, List.map_cons, List.sum_cons]
    rw [ih]
    omega

theorem workerData_count (dist : Nat → Nat → ℚ) (n T : Nat) (hT : 1 ≤ T) :
    (workerData dist n T).foldl (fun c l => c + l.count) 0 = (allPairs n).length := by
  rw [foldl_add_count, Nat.zero_add]
  have hlen := List.length_flatMap (List.range T)
    (fun i => segPairs n (segStart n T i) (segStop n T i))
  rw [workers_pairs_join n T hT] at hlen
  rw [hlen]
  unfold workerData
  rw [List.map_map]
  apply congrArg
  apply List.map_congr_left
  intro i _
  simp only [Function.comp_apply, determineAverageAngularDistanceThread_def]

theorem determineAverageAngularDistance_def (dist : Nat → Nat → ℚ) (n T : Nat)
    (hT : 1 ≤ T) :
    determineAverageAngularDistance dist n T =
      { min := (pairDists dist (allPairs n)).foldl min DBL_MAX
        max := (pairDists dist (allPairs n)).foldl max 0
        mean := 0
        total_sum := 0
        total_count := (allPairs n).length } := by
  unfold determineAverageAngularDistance
  simp only [ite_gt_eq_min, ite_lt_eq_max, GlobalState.mk.injEq]
  refine ⟨workerData_min dist n T hT, workerData_max dist n T hT, ?_,
    workerData_sum dist n T, workerData_count dist n T hT⟩
  rw [workerData_sum dist n T, zero_div]

theorem list_range_map_sum (f : Nat → Nat) : ∀ n : Nat,
    ((List.range n).map f).sum = ∑ i ∈ Finset.range n, f i := by
  intro n
  induction n with
  | zero => rfl
  | succ n ih =>
    rw [List.range_succ, List.map_append, List.sum_append, Finset.sum_range_succ, ih]
    simp

theorem allPairs_length (n : Nat) : (allPairs n).length = n * (n - 1) / 2 := by
  unfold allPairs
  rw [List.length_flatMap]
  have h1 : ((List.range n).map (List.length ∘ fun i => innerPairs n i)) =
      (List.range n).map (fun i => n - 1 - i) := by
    apply List.map_congr_left
    intro i _
    simp only [Function.comp_apply, innerPairs, List.length_map, List.length_range']
    omega
  rw [h1, list_range_map_sum]
  have h2 := Finset.sum_range_reflect (fun i => i) n
  simp only at h2
  rw [h2]
  have h3 := Finset.sum_range_id_mul_two n
  omega

theorem mem_allPairs (n i j : Nat) : (i, j) ∈ allPairs n ↔ i < j ∧ j < n := by
  unfold allPairs innerPairs
  simp only [List.mem_flatMap, List.mem_map, List.mem_range, List.mem_range'_1,
    Prod.mk.injEq]
  constructor
  · rintro ⟨a, ha, x, ⟨h1, h2⟩, rfl, rfl⟩
    omega
  · rintro ⟨hij, hjn⟩
    exact ⟨i, by omega, j, ⟨by omega, by omega⟩, rfl, rfl⟩

/-- C2: for every catalog with at least two positions and every valid worker
count, the final global `min` and `max` equal, respectively, the minimum and
maximum pairwise separation over all unique unordered pairs `(i, j)`,
`i < j < n`: each is a bound attained at some pair.  The distances are
assumed to lie in `[0, 180]`, which the kernel guarantees. -/
theorem C2_min_max_over_all_pairs (dist : Nat → Nat → ℚ) (n T : Nat)
    (hn : 2 ≤ n) (hT : 1 ≤ T)
    (hlo : ∀ p ∈ allPairs n, 0 ≤ dist p.1 p.2)
    (hhi : ∀ p ∈ allPairs n, dist p.1 p.2 ≤ 180) :
    ((∀ i j, i < j → j < n →
        (determineAverageAngularDistance dist n T).min ≤ dist i j) ∧
      (∃ i j, i < j ∧ j < n ∧
        (determineAverageAngularDistance dist n T).min = dist i j)) ∧
    ((∀ i j, i < j → j < n →
        dist i j ≤ (determineAverageAngularDistance dist n T).max) ∧
      (∃ i j, i < j ∧ j < n ∧
        (determineAverageAngularDistance dist n T).max = dist i j)) := by
  rw [determineAverageAngularDistance_def dist n T hT]
  dsimp only
  have hmem01 : ((0 : Nat), (1 : Nat)) ∈ allPairs n :=
    (mem_allPairs n 0 1).mpr ⟨by omega, by omega⟩
  have hd01 : dist 0 1 ∈ pairDists dist (allPairs n) :=
    List.mem_map.mpr ⟨(0, 1), hmem01, rfl⟩
  have hdmem : ∀ i j, i < j → j < n → dist i j ∈ pairDists dist (allPairs n) := by
    intro i j hij hjn
    exact List.mem_map.mpr ⟨(i, j), (mem_allPairs n i j).mpr ⟨hij, hjn⟩, rfl⟩
  have h180 : (180 : ℚ) < DBL_MAX := by norm_num [DBL_MAX]
  refine ⟨⟨?_, ?_⟩, ?_, ?_⟩
  · intro i j hij hjn
    exact foldl_min_le_mem _ _ _ (hdmem i j hij hjn)
  · rcases foldl_min_eq_init_or_mem (pairDists dist (allPairs n)) DBL_MAX with h | h
    · exfalso
      have h1 := foldl_min_le_mem (pairDists dist (allPairs n)) DBL_MAX _ hd01
      have h2 := hhi (0, 1) hmem01
      rw [h] at h1
      simp only at h2
      linarith
    · obtain ⟨⟨pi, pj⟩, hp, he⟩ := List.mem_map.mp h
      obtain ⟨h1, h2⟩ := (mem_allPairs n pi pj).mp hp
      exact ⟨pi, pj, h1, h2, he.symm⟩
  · intro i j hij hjn
    exact foldl_max_mem_le _ _ _ (hdmem i j hij hjn)
  · rcases foldl_max_eq_init_or_mem (pairDists dist (allPairs n)) 0 with h | h
    · have h1 := foldl_max_mem_le (pairDists dist (allPairs n)) 0 _ hd01
      have h2 := hlo (0, 1) hmem01
      simp only at h2
      refine ⟨0, 1, by omega, by omega, ?_⟩
      rw [h]
      linarith
    · obtain ⟨⟨pi, pj⟩, hp, he⟩ := List.mem_map.mp h
      obtain ⟨h1, h2⟩ := (mem_allPairs n pi pj).mp hp
      exact ⟨pi, pj, h1, h2, he.symm⟩

theorem C2_witness :
    ((2 ≤ 3 ∧ 1 ≤ 2) ∧ (∀ p ∈ allPairs 3, (0 : ℚ) ≤ dist90 p.1 p.2) ∧
      (∀ p ∈ allPairs 3, dist90 p.1 p.2 ≤ 180)) ∧
    (((∀ i j, i < j → j < 3 →
        (determineAverageAngularDistance dist90 3 2).min ≤ dist90 i j) ∧
      (∃ i j, i < j ∧ j < 3 ∧
        (determineAverageAngularDistance dist90 3 2).min = dist90 i j)) ∧
    ((∀ i j, i < j → j < 3 →
        dist90 i j ≤ (determineAverageAngularDistance dist90 3 2).max) ∧
      (∃ i j, i < j ∧ j < 3 ∧
        (determineAverageAngularDistance dist90 3 2).max = dist90 i j))) :=
  ⟨⟨⟨by omega, by omega⟩, fun p _ => by norm_num [dist90], fun p _ => by norm_num [dist90]⟩,
    C2_min_max_over_all_pairs dist90 3 2 (by omega) (by omega)
      (fun p _ => by norm_num [dist90]) (fun p _ => by norm_num [dist90])⟩

theorem run_total_count (dist : Nat → Nat → ℚ) (n T : Nat) (hT : 1 ≤ T) :
    (determineAverageAngularDistance dist n T).total_count = n * (n - 1) / 2 := by
  rw [determineAverageAngularDistance_def dist n T hT]
  exact allPairs_length n

/-- C3: for every catalog size `n ≥ 2` and every worker count `T ≥ 1`, the
per-worker pair counts summed across all workers (the `total_count` of the
reduction) equal `n * (n - 1) / 2`: no pair is counted twice or skipped. -/
theorem C3_total_pair_count (dist : Nat → Nat → ℚ) (n T : Nat)
    (hn : 2 ≤ n) (hT : 1 ≤ T) :
    (determineAverageAngularDistance dist n T).total_count = n * (n - 1) / 2 :=
  run_total_count dist n T hT

theorem C3_witness :
    (2 ≤ 3 ∧ 1 ≤ 2) ∧
    (determineAverageAngularDistance dist90 3 2).total_count = 3 * (3 - 1) / 2 :=
  ⟨⟨by omega, by omega⟩, C3_total_pair_count dist90 3 2 (by omega) (by omega)⟩

/-- C4: for all `n` and `T ≥ 1` the partition consists of exactly `T`
segments; each segment except the last has size `n / T`; the last segment
ends at `n`; segments are pairwise non-overlapping; and together they cover
`[0, n)` exactly. -/
theorem C4_partition (n T : Nat) (hT : 1 ≤ T) :
    ((List.range T).map (fun i => (segStart n T i, segStop n T i))).length = T ∧
    (∀ i, i < T - 1 → segStop n T i - segStart n T i = n / T) ∧
    segStop n T (T - 1) = n ∧
    (∀ i j, i < j → j < T → segStop n T i ≤ segStart n T j) ∧
    (∀ k, k < n ↔ ∃ i, i < T ∧ segStart n T i ≤ k ∧ k < segStop n T i) := by
  refine ⟨by simp, ?_, ?_, ?_, ?_⟩
  · intro i hi
    unfold segStart segStop
    rw [if_neg (by omega), Nat.add_mul, Nat.one_mul, Nat.add_sub_cancel_left]
  · unfold segStop
    rw [if_pos rfl]
  · intro i j hij hjT
    unfold segStart segStop
    rw [if_neg (by omega)]
    exact Nat.mul_le_mul_right _ (by omega)
  · intro k
    constructor
    · intro hk
      have hmem : k ∈ List.range n := List.mem_range.mpr hk
      rw [← seg_join n T hT, List.mem_flatMap] at hmem
      obtain ⟨i, hi, hk2⟩ := hmem
      rw [List.mem_range] at hi
      rw [List.mem_range'_1] at hk2
      have hle := segStart_le_segStop n T i hi
      exact ⟨i, hi, hk2.1, by omega⟩
    · rintro ⟨i, hiT, h1, h2⟩
      have hs : segStop n T i ≤ n := by
        rw [segStop_eq_cut n T i hiT]
        have hmono := cut_mono n T (show i + 1 ≤ T by omega)
        have hcT : cut n T T = n := by
          unfold cut
          rw [if_neg (lt_irrefl T)]
        omega
      omega

theorem C4_witness :
    1 ≤ 2 ∧
    (((List.range 2).map (fun i => (segStart 5 2 i, segStop 5 2 i))).length = 2 ∧
      (∀ i, i < 2 - 1 → segStop 5 2 i - segStart 5 2 i = 5 / 2) ∧
      segStop 5 2 (2 - 1) = 5 ∧
      (∀ i j, i < j → j < 2 → segStop 5 2 i ≤ segStart 5 2 j) ∧
      (∀ k, k < 5 ↔ ∃ i, i < 2 ∧ segStart 5 2 i ≤ k ∧ k < segStop 5 2 i)) :=
  ⟨by omega, C4_partition 5 2 (by omega)⟩

/-- C5: for a fixed catalog (abstracted by its pairwise distance function),
running with one worker and with any worker count `k > 1` yields identical
global `min` and identical global `max` — exactly, in the embedding's exact
arithmetic. -/
theorem C5_worker_count_invariance (dist : Nat → Nat → ℚ) (n k : Nat) (hk : 1 < k) :
    (determineAverageAngularDistance dist n 1).min =
      (determineAverageAngularDistance dist n k).min ∧
    (determineAverageAngularDistance dist n 1).max =
      (determineAverageAngularDistance dist n k).max := by
  rw [determineAverageAngularDistance_def dist n 1 le_rfl,
    determineAverageAngularDistance_def dist n k (by omega)]
  exact ⟨rfl, rfl⟩

theorem C5_witness :
    1 < 2 ∧
    ((determineAverageAngularDistance distIJ 3 1).min =
        (determineAverageAngularDistance distIJ 3 2).min ∧
      (determineAverageAngularDistance distIJ 3 1).max =
        (determineAverageAngularDistance distIJ 3 2).max) :=
  ⟨by omega, C5_worker_count_invariance distIJ 3 2 (by omega)⟩

/-- C1: the claim says each worker adds every computed distance to its local
sum and that `mean` is the arithmetic mean of all pairwise separations.  The
code never adds `distance` to `sum` (main.c line 78 initializes it, line 97
stores it unchanged), so on a 2-star catalog whose single pair is 90 degrees
apart the published `total_sum` is `0` and `mean` is `0`, not the arithmetic
mean `90 / 1`. -/
theorem C1_sum_never_accumulated :
    dist90 0 1 = 90 ∧
    (determineAverageAngularDistance dist90 2 1).total_count = 1 ∧
    (determineAverageAngularDistance dist90 2 1).total_sum = 0 ∧
    (determineAverageAngularDistance dist90 2 1).mean = 0 ∧
    (determineAverageAngularDistance dist90 2 1).mean ≠
      dist90 0 1 / ((determineAverageAngularDistance dist90 2 1).total_count : ℚ) := by
  have hr : List.range 1 = [0] := by decide
  have hseg : segPairs 2 0 2 = [(0, 1)] := by decide
  norm_num [determineAverageAngularDistance, workerData,
    determineAverageAngularDistanceThread, segStart, segStop, pairStep,
    dist90, DBL_MAX, hseg, hr]

/-- C9: the claim says `min ≤ mean ≤ max` once all pairs are counted.  On a
2-star catalog whose single pair is 90 degrees apart the code publishes
`min = max = 90` but `mean = 0` (the sum is never accumulated, main.c lines
78/97), so `min ≤ mean` fails. -/
theorem C9_mean_not_between_min_and_max :
    (determineAverageAngularDistance dist90 2 1).min = 90 ∧
    (determineAverageAngularDistance dist90 2 1).max = 90 ∧
    (determineAverageAngularDistance dist90 2 1).mean = 0 ∧
    ¬ ((determineAverageAngularDistance dist90 2 1).min ≤
        (determineAverageAngularDistance dist90 2 1).mean) := by
  have hr : List.range 1 = [0] := by decide
  have hseg : segPairs 2 0 2 = [(0, 1)] := by decide
  norm_num [determineAverageAngularDistance, workerData,
    determineAverageAngularDistanceThread, segStart, segStop, pairStep,
    dist90, DBL_MAX, hseg, hr]

/-- C8: the claim says a catalog with fewer than two positions raises a
PreconditionError instead of silently dividing by zero.  The code has no
such check: with bound `0` or `1` the computation runs to completion with
`total_count = 0`, and `mean = total_sum / total_count` is evaluated anyway
— `0.0 / 0` in C, which is NaN, rendered as `0` by `ℚ`'s total division.
No error value or early exit exists anywhere in
`determineAverageAngularDistance`. -/
theorem C8_no_precondition_error :
    (determineAverageAngularDistance dist0 0 1).total_count = 0 ∧
    (determineAverageAngularDistance dist0 1 1).total_count = 0 ∧
    (determineAverageAngularDistance dist0 1 1).mean =
      (0 : ℚ) / ((0 : Nat) : ℚ) := by
  have hr : List.range 1 = [0] := by decide
  have hseg0 : segPairs 0 0 0 = [] := by decide
  have hseg1 : segPairs 1 0 1 = [] := by decide
  norm_num [determineAverageAngularDistance, workerData,
    determineAverageAngularDistanceThread, segStart, segStop,
    dist0, DBL_MAX, hseg0, hseg1, hr]

/-- C7: the claim says a worker count `T ≤ 0` fails fast with a
configuration error before any work starts.  The code never validates
`num_threads` (main.c lines 167-168 store `atoi(optarg)` unchecked): at
`T = 0` it evaluates `stars_per_thread = NUM_STARS / num_threads` — a
division by zero, undefined behavior in C (`Nat` division renders it `0`) —
spawns no workers, and still produces a final state with `total_count = 0`,
`min = DBL_MAX`, `max = 0` and the degenerate `mean = 0 / 0`; no
configuration-error path exists. -/
theorem C7_no_configuration_error :
    (determineAverageAngularDistance dist0 NUM_STARS 0).total_count = 0 ∧
    (determineAverageAngularDistance dist0 NUM_STARS 0).min = DBL_MAX ∧
    (determineAverageAngularDistance dist0 NUM_STARS 0).max = 0 ∧
    (determineAverageAngularDistance dist0 NUM_STARS 0).mean = 0 := by
  have h0 : workerData dist0 NUM_STARS 0 = [] := by
    unfold workerData
    rfl
  norm_num [determineAverageAngularDistance, h0]

/-- C6: in the distance kernel (modelled from the spec, §4.1, because the C
definition of `calculateAngularDistance` is not in the repository snapshot)
the spherical-law-of-cosines value is clamped to `[-1, 1]` before the
inverse cosine, so for every input the `acos` argument is in its domain,
the `acos` result is a well-defined value in `[0, π]`, and the distance is
a well-defined value in `[0, 180]` — never NaN. -/
theorem C6_clamp_makes_acos_domain_safe (ra1 dec1 ra2 dec2 : ℝ) :
    clampCos (cosTheta ra1 dec1 ra2 dec2) ∈ Set.Icc (-1 : ℝ) 1 ∧
    Real.arccos (clampCos (cosTheta ra1 dec1 ra2 dec2)) ∈ Set.Icc 0 Real.pi ∧
    0 ≤ calculateAngularDistance ra1 dec1 ra2 dec2 ∧
    calculateAngularDistance ra1 dec1 ra2 dec2 ≤ 180 := by
  refine ⟨⟨le_max_left _ _, max_le (by norm_num) (min_le_left _ _)⟩,
    ⟨Real.arccos_nonneg _, Real.arccos_le_pi _⟩, ?_, ?_⟩
  · unfold calculateAngularDistance toDegrees
    apply mul_nonneg (Real.arccos_nonneg _)
    positivity
  · unfold calculateAngularDistance toDegrees
    have h1 : Real.arccos (clampCos (cosTheta ra1 dec1 ra2 dec2)) ≤ Real.pi :=
      Real.arccos_le_pi _
    have h2 : (0 : ℝ) ≤ 180 / Real.pi := by positivity
    calc Real.arccos (clampCos (cosTheta ra1 dec1 ra2 dec2)) * (180 / Real.pi)
        ≤ Real.pi * (180 / Real.pi) := mul_le_mul_of_nonneg_right h1 h2
      _ = 180 := by
        field_simp

/-- C10: the pair enumeration and the partition are bounded by the
compile-time constant `NUM_STARS = 30000`, not by the number of records
read: for any `star_count < 30000` the computation is literally the
`NUM_STARS`-bounded one, the last segment ends at `30000`, the enumerated
pairs include a pair whose second index is `≥ star_count` (an array slot
the loader never filled), and the total pair count is
`30000 * 29999 / 2` regardless of `star_count`. -/
theorem C10_loops_bounded_by_NUM_STARS (dist : Nat → Nat → ℚ) (sc T : Nat)
    (hsc : sc < NUM_STARS) (hT : 1 ≤ T) :
    mainComputation dist sc T = determineAverageAngularDistance dist NUM_STARS T ∧
    segStop NUM_STARS T (T - 1) = NUM_STARS ∧
    ((0, max sc 1) ∈ allPairs NUM_STARS ∧ sc ≤ max sc 1) ∧
    (mainComputation dist sc T).total_count = NUM_STARS * (NUM_STARS - 1) / 2 := by
  refine ⟨rfl, ?_, ⟨?_, le_max_left sc 1⟩, ?_⟩
  · unfold segStop
    rw [if_pos rfl]
  · rw [mem_allPairs]
    constructor
    · exact lt_of_lt_of_le (by omega) (le_max_right sc 1)
    · exact max_lt hsc (by norm_num [NUM_STARS])
  · exact run_total_count dist NUM_STARS T hT

theorem C10_witness :
    (5 < NUM_STARS ∧ 1 ≤ 2) ∧
    (mainComputation dist0 5 2 = determineAverageAngularDistance dist0 NUM_STARS 2 ∧
      segStop NUM_STARS 2 (2 - 1) = NUM_STARS ∧
      ((0, max 5 1) ∈ allPairs NUM_STARS ∧ 5 ≤ max 5 1) ∧
      (mainComputation dist0 5 2).total_count = NUM_STARS * (NUM_STARS - 1) / 2) :=
  ⟨⟨by norm_num [NUM_STARS], by omega⟩,
    C10_loops_bounded_by_NUM_STARS dist0 5 2 (by norm_num [NUM_STARS]) (by omega)⟩
